import Mathlib

set_option maxHeartbeats 1000000

namespace NextAiReady

/-- JS-like values appearing in log records. `error` models an `Error`
instance carrying `name`/`message`/`stack`; `obj` models a plain object as an
ordered field list (later assignments override earlier ones). -/
inductive JSValue where
  | str (s : String)
  | num (n : Nat)
  | bool (b : Bool)
  | undefV
  | jsNull
  | error (name message : String) (stack : Option String)
  | obj (fields : List (String × JSValue))
deriving Repr

mutual
/-- Structural equality on JS values (deciding propositional equality). -/
def jeq : JSValue → JSValue → Bool
  | .str a, .str b => a == b
  | .num a, .num b => a == b
  | .bool a, .bool b => a == b
  | .undefV, .undefV => true
  | .jsNull, .jsNull => true
  | .error n m st, .error n2 m2 st2 => n == n2 && m == m2 && st == st2
  | .obj fs, .obj gs => jeqF fs gs
  | _, _ => false

def jeqF : List (String × JSValue) → List (String × JSValue) → Bool
  | [], [] => true
  | (k, v) :: tl, (k2, v2) :: tl2 => k == k2 && jeq v v2 && jeqF tl tl2
  | _, _ => false
end

instance : BEq JSValue := ⟨jeq⟩

/-- Combined structural induction for `JSValue` and field lists. -/
theorem jsvalue_ind (P : JSValue → Prop) (Q : List (String × JSValue) → Prop)
    (hstr : ∀ s, P (.str s)) (hnum : ∀ n, P (.num n)) (hbool : ∀ b, P (.bool b))
    (hundef : P .undefV) (hnull : P .jsNull)
    (herror : ∀ n m st, P (.error n m st))
    (hobj : ∀ fs, Q fs → P (.obj fs))
    (hnil : Q [])
    (hcons : ∀ k v tl, P v → Q tl → Q ((k, v) :: tl)) :
    (∀ w, P w) ∧ (∀ fs, Q fs) := by
  have key : ∀ n : Nat,
      (∀ w, sizeOf w ≤ n → P w) ∧ (∀ fs, sizeOf fs ≤ n → Q fs) := by
    intro n
    induction n with
    | zero =>
      constructor
      · intro w hw; exfalso; cases w <;> simp_arith at hw
      · intro fs hfs; exfalso
        cases fs with
        | nil => simp_arith at hfs
        | cons e tl => simp_arith at hfs
    | succ n ih =>
      constructor
      · intro w hw
        cases w with
        | str s => exact hstr s
        | num m => exact hnum m
        | bool b => exact hbool b
        | undefV => exact hundef
        | jsNull => exact hnull
        | error a b c => exact herror a b c
        | obj fs =>
          refine hobj fs (ih.2 fs ?_)
          simp_arith at hw
          omega
      · intro fs hfs
        cases fs with
        | nil => exact hnil
        | cons e tl =>
          obtain ⟨k, v⟩ := e
          refine hcons k v tl (ih.1 v ?_) (ih.2 tl ?_) <;>
            (simp_arith at hfs; omega)
  exact ⟨fun w => (key (sizeOf w)).1 w le_rfl,
         fun fs => (key (sizeOf fs)).2 fs le_rfl⟩

/-- `jeq` decides equality. -/
theorem jeq_iff :
    (∀ w u, jeq w u = true ↔ w = u) ∧
    (∀ fs gs, jeqF fs gs = true ↔ fs = gs) := by
  refine jsvalue_ind (fun w => ∀ u, jeq w u = true ↔ w = u)
    (fun fs => ∀ gs, jeqF fs gs = true ↔ fs = gs) ?_ ?_ ?_ ?_ ?_ ?_ ?_ ?_ ?_
  · intro s u; cases u <;> simp [jeq]
  · intro n u; cases u <;> simp [jeq]
  · intro b u; cases u <;> simp [jeq]
  · intro u; cases u <;> simp [jeq]
  · intro u; cases u <;> simp [jeq]
  · intro n m st u; cases u <;> simp [jeq, and_assoc]
  · intro fs hfs u
    cases u <;> simp [jeq]
    exact hfs _
  · intro gs; cases gs with
    | nil => simp [jeqF]
    | cons e tl => obtain ⟨k, v⟩ := e; simp [jeqF]
  · intro k v tl hv htl gs
    cases gs with
    | nil => simp [jeqF]
    | cons e tl2 =>
      obtain ⟨k2, v2⟩ := e
      simp [jeqF, hv, htl, and_assoc]

instance : DecidableEq JSValue := fun a b =>
  decidable_of_iff (jeq a b = true) (jeq_iff.1 a b)

instance : LawfulBEq JSValue where
  eq_of_beq h := (jeq_iff.1 _ _).mp h
  rfl := (jeq_iff.1 _ _).mpr rfl

/-- Last-wins field lookup over a raw field list, matching the read semantics
of a JS object built by assigning the entries in order. -/
def lookupF : List (String × JSValue) → String → Option JSValue
  | [], _ => none
  | (k2, v) :: tl, k =>
      match lookupF tl k with
      | some w => some w
      | none => if k2 = k then some v else none

/-- One JS property assignment: overwrite in place when the key exists,
append otherwise (JS object insertion order semantics). -/
def putField (fs : List (String × JSValue)) (k : String) (v : JSValue) :
    List (String × JSValue) :=
  if fs.any (fun e => e.1 == k) then
    fs.map (fun e => if e.1 == k then (k, v) else e)
  else fs ++ [(k, v)]

/-- Build a JS object from a list of assignments in order (models object
literals and spreads: later entries override earlier ones). -/
def mkObj (fs : List (String × JSValue)) : List (String × JSValue) :=
  fs.foldl (fun acc e => putField acc e.1 e.2) []

/-- Path lookup into nested objects (`a.b.c`-style access). -/
def getPathV : List String → JSValue → Option JSValue
  | [], w => some w
  | k :: rest, .obj fs =>
      match lookupF fs k with
      | some w => getPathV rest w
      | none => none
  | _ :: _, _ => none

/-- Boolean list-prefix test on key paths. -/
def prefixOfB : List String → List String → Bool
  | [], _ => true
  | _ :: _, [] => false
  | a :: as2, b :: bs => a == b && prefixOfB as2 bs

/-- Of the given redaction paths, those starting with key `k`, stripped of
that first key. -/
def tailsFor (k : String) (ps : List (List String)) : List (List String) :=
  (ps.filter (fun p => p.head? = some k)).map List.tail

mutual
/-- Apply redaction paths to a value: an exhausted path censors the whole
value, otherwise recurse into object fields along the paths. -/
def redactV (censor : JSValue) (ts : List (List String)) : JSValue → JSValue
  | .obj fs => if ts.contains [] then censor else .obj (redactF censor ts fs)
  | w => if ts.contains [] then censor else w

def redactF (censor : JSValue) (ts : List (List String)) :
    List (String × JSValue) → List (String × JSValue)
  | [] => []
  | (k, v) :: tl =>
      (k, redactV censor (tailsFor k ts) v) :: redactF censor ts tl
end

mutual
/-- Remove (rather than censor) the fields addressed by the paths: the
record with its redacted positions deleted. -/
def eraseV (ts : List (List String)) : JSValue → JSValue
  | .obj fs => .obj (eraseF ts fs)
  | w => w

def eraseF (ts : List (List String)) :
    List (String × JSValue) → List (String × JSValue)
  | [] => []
  | (k, v) :: tl =>
      if (tailsFor k ts).contains [] then eraseF ts tl
      else (k, eraseV (tailsFor k ts) v) :: eraseF ts tl
end

def isUndefV : JSValue → Bool
  | .undefV => true
  | _ => false

mutual
/-- Drop `undefined`-valued fields at every depth: the composition of the
logger's `formatters.log` cleaning with JSON serialization, which cannot
represent `undefined`. -/
def deepCleanV : JSValue → JSValue
  | .obj fs => .obj (deepCleanF fs)
  | w => w

def deepCleanF : List (String × JSValue) → List (String × JSValue)
  | [] => []
  | (k, v) :: tl =>
      if isUndefV v then deepCleanF tl
      else (k, deepCleanV v) :: deepCleanF tl
end

mutual
/-- `occursV v w`: value `v` appears somewhere inside `w` (as `w` itself or
nested in an object field). -/
def occursV (v : JSValue) : JSValue → Bool
  | .obj fs => v == .obj fs || occursF v fs
  | w => v == w

def occursF (v : JSValue) : List (String × JSValue) → Bool
  | [] => false
  | (_, w) :: tl => occursV v w || occursF v tl
end

/-! ## Level registry and logger configuration (`logger.ts`) -/

/-- The fixed `LOG_LEVELS` table: severity names with integer weights. -/
def LOG_LEVELS : List (String × Nat) :=
  [("fatal", 60), ("error", 50), ("warn", 40),
   ("info", 30), ("debug", 20), ("trace", 10)]

/-- The six recognized severity names. -/
def levelNames : List String := LOG_LEVELS.map (fun e => e.1)

/-- Numeric weight of a level label. `silent` is pino's always-above-everything
level (`Infinity` in the source library, modelled as 1000, above `fatal`'s 60).
Unrecognized labels are rejected at construction and never reach emission. -/
def levelVal : String → Nat
  | "fatal" => 60
  | "error" => 50
  | "warn" => 40
  | "info" => 30
  | "debug" => 20
  | "trace" => 10
  | "silent" => 1000
  | _ => 0

inductive NodeEnv where
  | development
  | production
  | test
deriving Repr, DecidableEq

def envName : NodeEnv → String
  | .development => "development"
  | .production => "production"
  | .test => "test"

/-- JS truthiness of an optional string (`if (env.LOG_LEVEL)`): absent and
empty strings are falsy. -/
def truthy : Option String → Bool
  | some s => s ≠ ""
  | none => false

/-- The fixed production redaction path list from `createLoggerConfig`
(`'req.headers.authorization'` etc. split into key paths). -/
def defaultRedactPaths : List (List String) :=
  [["password"], ["token"], ["secret"], ["authorization"], ["cookie"],
   ["req", "headers", "authorization"], ["req", "headers", "cookie"],
   ["res", "headers", "set-cookie"]]

def CENSOR : String := "***REDACTED***"

def censorJ : JSValue := .str CENSOR

/-- The pino options assembled by `createLoggerConfig`, restricted to the
behaviourally relevant parts (level, base fields, pretty transport,
redaction rules). -/
structure PinoConfig where
  name : String
  level : String
  base : List (String × JSValue)
  pretty : Bool
  redactPaths : List (List String)
  censor : String
deriving Repr, DecidableEq

/-- `getLogLevel` from `createLoggerConfig`: explicit override first, then
the environment defaults, `silent` otherwise. -/
def getLogLevel (nodeEnv : NodeEnv) (logLevel : Option String) : String :=
  if truthy logLevel then logLevel.getD ""
  else if nodeEnv = .development then "debug"
  else if nodeEnv = .production then "info"
  else "silent"

/-- The `base` option: static fields injected into every record. -/
def baseFields (nodeEnv : NodeEnv) (pid : Nat) (hostname version : Option String) :
    List (String × JSValue) :=
  [("pid", .num pid),
   ("hostname", .str (hostname.getD "localhost")),
   ("service", .str "next-ai-ready"),
   ("version", .str (version.getD "0.1.0")),
   ("env", .str (envName nodeEnv))]

/-- `createLoggerConfig`: branch on the environment exactly as the source
does — development adds the pretty transport, test overrides the level with
`silent`, production adds the redaction rule set. -/
def createLoggerConfig (nodeEnv : NodeEnv) (logLevel : Option String)
    (pid : Nat) (hostname version : Option String) : PinoConfig :=
  let baseConfig : PinoConfig :=
    { name := "next-ai-ready"
      level := getLogLevel nodeEnv logLevel
      base := baseFields nodeEnv pid hostname version
      pretty := false
      redactPaths := []
      censor := CENSOR }
  if nodeEnv = .development then { baseConfig with pretty := true }
  else if nodeEnv = .test then { baseConfig with level := "silent" }
  else { baseConfig with redactPaths := defaultRedactPaths }

/-- The spec's taxonomy name for the construction-time failure on an
unrecognized minimum-level name (the sink constructor's `unknown level`
rejection). -/
inductive ConfigurationError where
  | unknownLevel (level : String)
deriving Repr, DecidableEq

/-- Level labels the sink constructor accepts: the six names plus `silent`. -/
def pinoLevelNames : List String := levelNames ++ ["silent"]

/-- Logger construction from an assembled config: models the sink
constructor's validation of the configured level label. -/
def pinoInit (cfg : PinoConfig) : Except ConfigurationError PinoConfig :=
  if cfg.level ∈ pinoLevelNames then .ok cfg
  else .error (.unknownLevel cfg.level)

/-- `pino(createLoggerConfig())`: the process-wide logger construction. -/
def createLogger (nodeEnv : NodeEnv) (logLevel : Option String)
    (pid : Nat) (hostname version : Option String) :
    Except ConfigurationError PinoConfig :=
  pinoInit (createLoggerConfig nodeEnv logLevel pid hostname version)

/-! ## Record emission -/

/-- A record as submitted to the logger: a severity label plus the caller's
field object. -/
structure LogRecord where
  level : String
  fields : List (String × JSValue)
deriving Repr, DecidableEq

/-- The full key/value sequence merged into one emitted object: level and
time, the static base fields, the child logger's bound context, then the
record's own fields (later entries win). -/
def mergedFields (cfg : PinoConfig) (childCtx : List (String × JSValue))
    (timeIso : String) (rec : LogRecord) : List (String × JSValue) :=
  [("level", .str rec.level), ("time", .str timeIso)]
    ++ cfg.base ++ childCtx ++ rec.fields

/-- Post-processing of the merged object before it reaches the output
stream: redaction per the configured paths, then stripping of
`undefined`-valued fields (the `formatters.log` cleaning plus JSON
serialization, which cannot represent `undefined`). -/
def processOutput (cfg : PinoConfig) (fs : List (String × JSValue)) :
    List (String × JSValue) :=
  deepCleanF (redactF (.str cfg.censor) cfg.redactPaths (mkObj fs))

/-- Emission: a record is written only when its level's weight reaches the
configured minimum; the emitted object is the processed merge. -/
def emit (cfg : PinoConfig) (childCtx : List (String × JSValue))
    (timeIso : String) (rec : LogRecord) :
    Option (List (String × JSValue)) :=
  if levelVal cfg.level ≤ levelVal rec.level then
    some (processOutput cfg (mergedFields cfg childCtx timeIso rec))
  else none

/-! ## Helper loggers (`logger.ts`) -/

/-- JS coercion of a possibly-absent string. -/
def optStrJ : Option String → JSValue
  | some s => .str s
  | none => .undefV

/-- `String(value)` for the modelled values. -/
def jsToString : JSValue → String
  | .str s => s
  | .num n => toString n
  | .bool b => if b then "true" else "false"
  | .undefV => "undefined"
  | .jsNull => "null"
  | .error n m _ => n ++ ": " ++ m
  | .obj _ => "[object Object]"

def isErrorInstance : JSValue → Bool
  | .error _ _ _ => true
  | _ => false

/-- The `instanceof Error` normalization used by `logError`, `withLogging`
and `logApiError`: name/message/stack verbatim for Error instances,
`Unknown`/`String(value)`/undefined otherwise. -/
def normalizeError : JSValue → JSValue
  | .error n m st =>
      .obj (mkObj [("name", .str n), ("message", .str m), ("stack", optStrJ st)])
  | v =>
      .obj (mkObj [("name", .str "Unknown"),
                   ("message", .str (jsToString v)),
                   ("stack", .undefV)])

/-- `logError(error, context)`: one `error`-level record merging the context
with the normalized error and the fixed message. Totality of this function
is the model of "never raises". -/
def logError (e : JSValue) (ctx : List (String × JSValue)) : List LogRecord :=
  [{ level := "error"
     fields := mkObj (ctx ++ [("error", normalizeError e),
                              ("msg", .str "Error occurred")]) }]

/-- Bound context of the audit child logger. -/
def auditCtx : List (String × JSValue) := [("type", .str "audit")]

/-- `logAuditEvent(event, userId, context)`: the `info` record submitted
through the audit child logger. -/
def logAuditEvent (event : String) (userId : Option String)
    (ctx : List (String × JSValue)) (nowIso : String) : LogRecord :=
  { level := "info"
    fields := mkObj ([("event", .str event), ("userId", optStrJ userId)]
      ++ ctx ++ [("timestamp", .str nowIso)]) }

/-- A started performance timer (`enhanceLogger`'s `startTimer`): operation
name, captured start time, and the pre-tagged child context. -/
structure TimerHandle where
  operation : String
  startTime : Nat
  timerCtx : List (String × JSValue)
deriving Repr, DecidableEq

/-- `logger.startTimer(operation)` at clock value `t0`. -/
def startTimer (parentCtx : List (String × JSValue)) (operation : String)
    (t0 : Nat) : TimerHandle :=
  { operation := operation
    startTime := t0
    timerCtx := mkObj (parentCtx ++ [("operation", .str operation),
                                     ("type", .str "performance")]) }

/-- The timer's completion call (`done`) at clock value `t1`: computes the
duration, emits one `info` record merging the extra fields with the duration
and fixed message, and returns the duration. -/
def timerDone (h : TimerHandle) (extra : List (String × JSValue)) (t1 : Nat) :
    Nat × List LogRecord :=
  let duration := t1 - h.startTime
  (duration,
   [{ level := "info"
      fields := mkObj (extra ++
        [("duration", .num duration),
         ("msg", .str ("Operation " ++ h.operation ++ " completed"))]) }])

/-! ## Request-logging middleware (`api-logger.ts`) -/

/-- The write effects the original response operations perform. -/
inductive WriteEv where
  | json (body : JSValue)
  | send (body : JSValue)
  | endR
deriving Repr, DecidableEq

structure ResState where
  statusCode : Nat
  writes : List WriteEv
deriving Repr, DecidableEq

/-- Middleware-visible state: the response, the current clock, and the
records logged so far. -/
structure MState where
  res : ResState
  now : Nat
  log : List LogRecord
deriving Repr, DecidableEq

/-- The three response-emitting operations as first-class functions (the
mutable `res.json`/`res.send`/`res.end` slots the middleware overrides). -/
structure ResOps where
  json : JSValue → MState → MState
  send : JSValue → MState → MState
  endOp : MState → MState

/-- The original (framework) operations: write the body, log nothing. -/
def origOps : ResOps where
  json := fun b s => { s with res := { s.res with writes := s.res.writes ++ [.json b] } }
  send := fun b s => { s with res := { s.res with writes := s.res.writes ++ [.send b] } }
  endOp := fun s => { s with res := { s.res with writes := s.res.writes ++ [.endR] } }

/-- An incoming API request, including the `id`/`startTime` slots the
middleware assigns onto it. -/
structure Req where
  url : String
  method : String
  query : JSValue
  body : JSValue
  headers : List (String × JSValue)
  id : Option String
  startTime : Option Nat
deriving Repr, DecidableEq

/-- `req.startTime ? Date.now() - req.startTime : 0` (0 is falsy in JS). -/
def reqDuration (startTime : Option Nat) (now : Nat) : Nat :=
  match startTime with
  | some t => if t ≠ 0 then now - t else 0
  | none => 0

/-- The completion record the interception emits: requestId, statusCode,
duration, the response body only for statuses ≥ 400, fixed message. -/
def completionRecord (rid : String) (duration statusCode : Nat)
    (body : Option JSValue) : LogRecord :=
  { level := "info"
    fields := mkObj
      [("requestId", .str rid), ("statusCode", .num statusCode),
       ("duration", .num duration),
       ("responseBody", if 400 ≤ statusCode then body.getD .undefV else .undefV),
       ("msg", .str "Request completed")] }

/-- The inbound-request record: body only for non-GET methods. -/
def incomingRecord (rid : String) (req : Req) : LogRecord :=
  { level := "info"
    fields := mkObj
      [("requestId", .str rid), ("method", .str req.method),
       ("url", .str req.url), ("query", req.query),
       ("body", if req.method ≠ "GET" then req.body else .undefV),
       ("msg", .str "Incoming request")] }

/-- The record logged when the handler raises: requestId, duration,
normalized error, fixed message. -/
def failureRecord (rid : String) (duration : Nat) (e : JSValue) : LogRecord :=
  { level := "error"
    fields := mkObj
      [("requestId", .str rid), ("duration", .num duration),
       ("error", normalizeError e), ("msg", .str "Request failed")] }

/-- The `onComplete` callback installed by `withLogging`: append one
completion record reading the response's current status code. -/
def onComplete (rid : String) (startTime : Nat) (body : Option JSValue)
    (s : MState) : MState :=
  { s with log := s.log ++
      [completionRecord rid (reqDuration (some startTime) s.now)
        s.res.statusCode body] }

/-- `interceptResponse`: each of the three operations is replaced by a
wrapper that first invokes `onComplete`, then delegates to the original. -/
def interceptOps (rid : String) (startTime : Nat) : ResOps where
  json := fun b s => origOps.json b (onComplete rid startTime (some b) s)
  send := fun b s => origOps.send b (onComplete rid startTime (some b) s)
  endOp := fun s => origOps.endOp (onComplete rid startTime none s)

/-- Handler bodies as sequences of primitive steps: set the status code,
invoke a response-emitting operation, or raise. -/
inductive HCmd where
  | setStatus (n : Nat)
  | jsonC (body : JSValue)
  | sendC (body : JSValue)
  | endC
  | throwC (e : JSValue)
deriving Repr, DecidableEq

/-- Run a handler against a set of response operations; a raise aborts the
rest and surfaces the raised value. -/
def exec (ops : ResOps) : List HCmd → MState → MState × Option JSValue
  | [], s => (s, none)
  | .setStatus n :: cs, s =>
      exec ops cs { s with res := { s.res with statusCode := n } }
  | .jsonC b :: cs, s => exec ops cs (ops.json b s)
  | .sendC b :: cs, s => exec ops cs (ops.send b s)
  | .endC :: cs, s => exec ops cs (ops.endOp s)
  | .throwC e :: _, s => (s, some e)

/-- `withLogging(handler)` applied to one request: health-check bypass, or
assign id/startTime, log the inbound record, run the handler against the
intercepted operations, and on a raise log one failure record and re-raise.
Returns the final state, the propagated error, and the request object the
handler was invoked with. -/
def withLogging (handler : List HCmd) (rid : String) (t0 : Nat) (req : Req)
    (s : MState) : (MState × Option JSValue) × Req :=
  if req.url = "/api/health" then
    (exec origOps handler s, req)
  else
    let req2 := { req with id := some rid, startTime := some t0 }
    let s1 := { s with log := s.log ++ [incomingRecord rid req2] }
    let r2 := exec (interceptOps rid t0) handler s1
    match r2.2 with
    | none => (r2, req2)
    | some e =>
        (({ r2.1 with
            log := r2.1.log ++
              [failureRecord rid (reqDuration (some t0) r2.1.now) e] },
          some e), req2)

/-- A completion-type record (fixed completion message). -/
def isCompletionRec (r : LogRecord) : Bool :=
  lookupF r.fields "msg" == some (.str "Request completed")

def isEmit : HCmd → Bool
  | .jsonC _ => true
  | .sendC _ => true
  | .endC => true
  | _ => false

def isThrow : HCmd → Bool
  | .throwC _ => true
  | _ => false

/-- The status code after running a sequence of steps (only `setStatus`
changes it). -/
def statusAfter (s0 : Nat) (cs : List HCmd) : Nat :=
  cs.foldl (fun st c => match c with | .setStatus n => n | _ => st) s0

/-! ## Lookup lemmas -/

theorem lookupF_cons (k2 : String) (v : JSValue) (tl : List (String × JSValue))
    (k : String) :
    lookupF ((k2, v) :: tl) k =
      match lookupF tl k with
      | some w => some w
      | none => if k2 = k then some v else none := rfl

theorem lookupF_append (xs ys : List (String × JSValue)) (k : String) :
    lookupF (xs ++ ys) k =
      match lookupF ys k with
      | some v => some v
      | none => lookupF xs k := by
  induction xs with
  | nil => cases h : lookupF ys k <;> simp [lookupF, h]
  | cons e tl ih =>
    obtain ⟨k2, v⟩ := e
    rw [List.cons_append, lookupF_cons, lookupF_cons, ih]
    cases h1 : lookupF ys k
    · rfl
    · cases h2 : lookupF tl k <;> rfl

theorem lookupF_mapPut (fs : List (String × JSValue)) (k : String) (v : JSValue)
    (k2 : String) :
    lookupF (fs.map (fun e => if e.1 == k then (k, v) else e)) k2 =
      if k2 = k then (if fs.any (fun e => e.1 == k) then some v else none)
      else lookupF fs k2 := by
  induction fs with
  | nil => simp [lookupF]
  | cons e tl ih =>
    obtain ⟨a, b⟩ := e
    by_cases hak : a = k
    · subst hak
      rw [List.map_cons]
      simp only [beq_self_eq_true, if_true]
      rw [lookupF_cons, lookupF_cons, ih]
      by_cases hk2 : k2 = a
      · subst hk2
        simp only [if_pos rfl]
        cases hany : tl.any (fun e => e.1 == k2) <;> simp [hany]
      · simp only [hk2, if_false, List.any_cons, beq_self_eq_true, Bool.true_or,
          if_true]
        cases h2 : lookupF tl k2
        · simp [Ne.symm hk2]
        · rfl
    · have hne : (a == k) = false := by simp [hak]
      rw [List.map_cons]
      simp only [hne, Bool.false_eq_true, if_false]
      rw [lookupF_cons, lookupF_cons, ih]
      simp only [List.any_cons, hne, Bool.false_or]
      by_cases hk2 : k2 = k
      · subst hk2
        by_cases hany : tl.any (fun e => e.1 == k2) = true
        · simp [hany]
        · simp only [Bool.not_eq_true] at hany
          simp [hany, hak]
      · simp [hk2]

theorem lookupF_putField (fs : List (String × JSValue)) (k : String) (v : JSValue)
    (k2 : String) :
    lookupF (putField fs k v) k2 = if k2 = k then some v else lookupF fs k2 := by
  rw [putField]
  by_cases hany : fs.any (fun e => e.1 == k) = true
  · rw [if_pos hany, lookupF_mapPut]
    by_cases hk2 : k2 = k
    · simp [hk2, hany]
    · simp [hk2]
  · rw [if_neg hany, lookupF_append]
    have hsingle : lookupF [(k, v)] k2 = if k = k2 then some v else none := rfl
    rw [hsingle]
    by_cases hk2 : k2 = k
    · subst hk2; simp
    · rw [if_neg (Ne.symm hk2)]
      simp [hk2]

theorem lookupF_foldl_putField (fs : List (String × JSValue))
    (acc : List (String × JSValue)) (k : String) :
    lookupF (fs.foldl (fun a e => putField a e.1 e.2) acc) k =
      match lookupF fs k with
      | some v => some v
      | none => lookupF acc k := by
  induction fs generalizing acc with
  | nil => simp [lookupF]
  | cons e tl ih =>
    obtain ⟨k0, v0⟩ := e
    rw [List.foldl_cons, ih, lookupF_cons]
    cases h : lookupF tl k
    · simp only [lookupF_putField]
      by_cases hk : k = k0
      · subst hk; simp
      · simp [hk, Ne.symm hk]
    · rfl

/-- Reads from the built object agree with last-wins reads from the raw
assignment list. -/
theorem lookupF_mkObj (fs : List (String × JSValue)) (k : String) :
    lookupF (mkObj fs) k = lookupF fs k := by
  unfold mkObj
  rw [lookupF_foldl_putField]
  cases h : lookupF fs k <;> simp [lookupF, h]

/-! ## Middleware execution lemmas -/

theorem exec_append (ops : ResOps) (xs ys : List HCmd) (s : MState) :
    exec ops (xs ++ ys) s =
      match exec ops xs s with
      | (s1, none) => exec ops ys s1
      | (s1, some e) => (s1, some e) := by
  induction xs generalizing s with
  | nil => simp [exec]
  | cons c tl ih => cases c <;> simp [exec, ih]

/-- The intercepted operations never change the clock. -/
theorem exec_now (rid : String) (t0 : Nat) (cs : List HCmd) (s : MState) :
    (exec (interceptOps rid t0) cs s).1.now = s.now := by
  induction cs generalizing s with
  | nil => rfl
  | cons c tl ih =>
    cases c <;> simp only [exec] <;> rw [ih] <;>
      simp [interceptOps, origOps, onComplete]

/-- Steps that neither emit nor raise only move the status code. -/
theorem exec_quiet (ops : ResOps) (cs : List HCmd) (s : MState)
    (h : ∀ x ∈ cs, isEmit x = false ∧ isThrow x = false) :
    exec ops cs s =
      ({ s with res := { s.res with statusCode := statusAfter s.res.statusCode cs } },
       none) := by
  induction cs generalizing s with
  | nil => simp [exec, statusAfter]
  | cons c tl ih =>
    cases c with
    | setStatus n =>
      rw [exec, ih _ (fun x hx => h x (List.mem_cons_of_mem _ hx))]
      simp [statusAfter]
    | jsonC b => exact absurd (h _ (List.mem_cons_self _ _)).1 (by simp [isEmit])
    | sendC b => exact absurd (h _ (List.mem_cons_self _ _)).1 (by simp [isEmit])
    | endC => exact absurd (h _ (List.mem_cons_self _ _)).1 (by simp [isEmit])
    | throwC e => exact absurd (h _ (List.mem_cons_self _ _)).2 (by simp [isThrow])

/-- Emit-free steps leave the log untouched (raising included). -/
theorem exec_noemit_log (rid : String) (t0 : Nat) (cs : List HCmd) (s : MState)
    (h : ∀ x ∈ cs, isEmit x = false) :
    (exec (interceptOps rid t0) cs s).1.log = s.log := by
  induction cs generalizing s with
  | nil => rfl
  | cons c tl ih =>
    cases c with
    | setStatus n => rw [exec]; exact ih _ (fun x hx => h x (List.mem_cons_of_mem _ hx))
    | jsonC b => exact absurd (h _ (List.mem_cons_self _ _)) (by simp [isEmit])
    | sendC b => exact absurd (h _ (List.mem_cons_self _ _)) (by simp [isEmit])
    | endC => exact absurd (h _ (List.mem_cons_self _ _)) (by simp [isEmit])
    | throwC e => rfl

/-- Every record the interception itself appends is a completion record at
`info` level, so running the handler never adds `error`-level records. -/
theorem exec_errorCount (rid : String) (t0 : Nat) (cs : List HCmd) (s : MState) :
    ((exec (interceptOps rid t0) cs s).1.log).countP (fun r => r.level == "error")
      = s.log.countP (fun r => r.level == "error") := by
  induction cs generalizing s with
  | nil => rfl
  | cons c tl ih =>
    cases c <;> simp only [exec] <;> rw [ih] <;>
      simp [interceptOps, origOps, onComplete, List.countP_append,
        List.countP_cons, completionRecord]

/-- Steps without a raise run to completion. -/
theorem exec_nothrow (ops : ResOps) (cs : List HCmd) (s : MState)
    (h : ∀ x ∈ cs, isThrow x = false) :
    (exec ops cs s).2 = none := by
  induction cs generalizing s with
  | nil => rfl
  | cons c tl ih =>
    cases c with
    | setStatus n => exact ih _ (fun x hx => h x (List.mem_cons_of_mem _ hx))
    | jsonC b => exact ih _ (fun x hx => h x (List.mem_cons_of_mem _ hx))
    | sendC b => exact ih _ (fun x hx => h x (List.mem_cons_of_mem _ hx))
    | endC => exact ih _ (fun x hx => h x (List.mem_cons_of_mem _ hx))
    | throwC e => exact absurd (h _ (List.mem_cons_self _ _)) (by simp [isThrow])

/-- The body an emitting step passes to `onComplete` (`end` passes none). -/
def emitBody : HCmd → Option JSValue
  | .jsonC b => some b
  | .sendC b => some b
  | _ => none

/-- A handler that performs quiet steps, then exactly one emitting step,
then emit-free steps, leaves the log extended by exactly one completion
record carrying the status code the quiet prefix set. -/
theorem exec_one_emit_log (rid : String) (t0 : Nat) (pre : List HCmd) (c : HCmd)
    (post : List HCmd) (s : MState)
    (hemit : isEmit c = true)
    (hpre : ∀ x ∈ pre, isEmit x = false ∧ isThrow x = false)
    (hpost : ∀ x ∈ post, isEmit x = false) :
    (exec (interceptOps rid t0) (pre ++ c :: post) s).1.log
      = s.log ++ [completionRecord rid (reqDuration (some t0) s.now)
          (statusAfter s.res.statusCode pre) (emitBody c)] := by
  rw [exec_append, exec_quiet _ pre s hpre]
  cases c with
  | setStatus n => simp [isEmit] at hemit
  | throwC e => simp [isEmit] at hemit
  | jsonC b =>
    simp only [exec]
    rw [exec_noemit_log _ _ _ _ hpost]
    simp [interceptOps, origOps, onComplete, emitBody]
  | sendC b =>
    simp only [exec]
    rw [exec_noemit_log _ _ _ _ hpost]
    simp [interceptOps, origOps, onComplete, emitBody]
  | endC =>
    simp only [exec]
    rw [exec_noemit_log _ _ _ _ hpost]
    simp [interceptOps, origOps, onComplete, emitBody]

/-- A handler whose steps before a raise do not themselves raise surfaces
exactly the raised value. -/
theorem exec_throw_result (rid : String) (t0 : Nat) (pre : List HCmd)
    (e : JSValue) (s : MState)
    (hpre : ∀ x ∈ pre, isThrow x = false) :
    (exec (interceptOps rid t0) (pre ++ [.throwC e]) s).2 = some e := by
  rw [exec_append]
  rcases hp : exec (interceptOps rid t0) pre s with ⟨s2, e2⟩
  have h2 : e2 = none := by
    have := exec_nothrow (interceptOps rid t0) pre s hpre
    rw [hp] at this
    exact this
  subst h2
  rfl

/-- Field facts about the records the middleware constructs. -/
theorem isCompletionRec_completion (rid : String) (d st : Nat)
    (b : Option JSValue) :
    isCompletionRec (completionRecord rid d st b) = true := by
  simp [isCompletionRec, completionRecord, lookupF_mkObj, lookupF]

theorem isCompletionRec_incoming (rid : String) (req : Req) :
    isCompletionRec (incomingRecord rid req) = false := by
  simp [isCompletionRec, incomingRecord, lookupF_mkObj, lookupF]

theorem isCompletionRec_failure (rid : String) (d : Nat) (e : JSValue) :
    isCompletionRec (failureRecord rid d e) = false := by
  simp [isCompletionRec, failureRecord, lookupF_mkObj, lookupF]

theorem completion_statusCode (rid : String) (d st : Nat) (b : Option JSValue) :
    lookupF (completionRecord rid d st b).fields "statusCode"
      = some (.num st) := by
  simp [completionRecord, lookupF_mkObj, lookupF]

/-- On a non-health-check request, `withLogging` passes the handler the
request with `id`/`startTime` assigned, propagates the handler run's
outcome, and its final log is the handler run's log plus (only on a raise)
one failure record. -/
theorem withLogging_components (handler : List HCmd) (rid : String) (t0 : Nat)
    (req : Req) (s : MState) (hurl : req.url ≠ "/api/health") :
    (withLogging handler rid t0 req s).2
        = { req with id := some rid, startTime := some t0 }
    ∧ (withLogging handler rid t0 req s).1.2
        = (exec (interceptOps rid t0) handler
            { s with log := s.log ++ [incomingRecord rid
                { req with id := some rid, startTime := some t0 }] }).2
    ∧ (withLogging handler rid t0 req s).1.1.log
        = (exec (interceptOps rid t0) handler
            { s with log := s.log ++ [incomingRecord rid
                { req with id := some rid, startTime := some t0 }] }).1.log
          ++ (match (exec (interceptOps rid t0) handler
                { s with log := s.log ++ [incomingRecord rid
                    { req with id := some rid, startTime := some t0 }] }).2 with
              | none => []
              | some e =>
                  [failureRecord rid (reqDuration (some t0) s.now) e]) := by
  have hnow : (exec (interceptOps rid t0) handler
      { s with log := s.log ++ [incomingRecord rid
          { req with id := some rid, startTime := some t0 }] }).1.now = s.now :=
    exec_now _ _ _ _
  simp only [withLogging, if_neg hurl]
  cases hE : (exec (interceptOps rid t0) handler
      { s with log := s.log ++ [incomingRecord rid
          { req with id := some rid, startTime := some t0 }] }).2 with
  | none => simp [hE]
  | some e => simp [hE, hnow]

/-! ## Claim theorems: middleware -/

/-- C1: for every request not matching the health-check path and every
handler that performs exactly one response-emitting operation (json, send,
or end), the wrapped handler produced by `withLogging` logs exactly one
completion-type record, and its `statusCode` field equals the status the
handler set before emitting; the interception never logs a second
completion record for the request. -/
theorem C1_middleware_single_completion
    (req : Req) (rid : String) (t0 : Nat) (s : MState)
    (pre post : List HCmd) (c : HCmd)
    (hurl : req.url ≠ "/api/health")
    (hlog : s.log = [])
    (hemit : isEmit c = true)
    (hpre : ∀ x ∈ pre, isEmit x = false ∧ isThrow x = false)
    (hpost : ∀ x ∈ post, isEmit x = false) :
    ((withLogging (pre ++ c :: post) rid t0 req s).1.1.log.countP
        (fun r => isCompletionRec r)) = 1
    ∧ ∀ r ∈ (withLogging (pre ++ c :: post) rid t0 req s).1.1.log,
        isCompletionRec r = true →
          lookupF r.fields "statusCode"
            = some (.num (statusAfter s.res.statusCode pre)) := by
  obtain ⟨-, -, hlogEq⟩ := withLogging_components (pre ++ c :: post) rid t0 req s hurl
  rw [hlogEq, exec_one_emit_log rid t0 pre c post _ hemit hpre hpost]
  cases hE : (exec (interceptOps rid t0) (pre ++ c :: post)
      { s with log := s.log ++ [incomingRecord rid
          { req with id := some rid, startTime := some t0 }] }).2 with
  | none =>
    refine ⟨?_, ?_⟩
    · simp [hlog, List.countP_append, List.countP_cons,
        isCompletionRec_incoming, isCompletionRec_completion]
    · intro r hr hcomp
      simp [hlog] at hr
      rcases hr with hr | hr
      · subst hr
        simp [isCompletionRec_incoming] at hcomp
      · subst hr
        exact completion_statusCode _ _ _ _
  | some e =>
    refine ⟨?_, ?_⟩
    · simp [hlog, List.countP_append, List.countP_cons,
        isCompletionRec_incoming, isCompletionRec_completion,
        isCompletionRec_failure]
    · intro r hr hcomp
      simp [hlog] at hr
      rcases hr with hr | hr | hr
      · subst hr
        simp [isCompletionRec_incoming] at hcomp
      · subst hr
        exact completion_statusCode _ _ _ _
      · subst hr
        simp [isCompletionRec_failure] at hcomp

/-- C1 witness: a handler that sets status 201 and calls `json` once yields
exactly one completion record carrying status 201. -/
theorem C1_witness :
    ((withLogging ([HCmd.setStatus 201] ++ HCmd.jsonC (.str "ok") :: [])
        "r1" 100
        { url := "/api/users", method := "GET", query := .obj [], body := .undefV,
          headers := [], id := none, startTime := none }
        { res := { statusCode := 200, writes := [] }, now := 130,
          log := [] }).1.1.log.countP (fun r => isCompletionRec r)) = 1
    ∧ ∀ r ∈ (withLogging ([HCmd.setStatus 201] ++ HCmd.jsonC (.str "ok") :: [])
        "r1" 100
        { url := "/api/users", method := "GET", query := .obj [], body := .undefV,
          headers := [], id := none, startTime := none }
        { res := { statusCode := 200, writes := [] }, now := 130,
          log := [] }).1.1.log,
        isCompletionRec r = true →
          lookupF r.fields "statusCode"
            = some (.num (statusAfter 200 [HCmd.setStatus 201])) :=
  C1_middleware_single_completion _ "r1" 100 _ [HCmd.setStatus 201] []
    (HCmd.jsonC (.str "ok")) (by decide) rfl (by decide) (by decide) (by decide)

/-- C5: for every handler that raises a value `e`, the wrapped handler
raises the same value unchanged and logs exactly one error-level record
carrying the request identifier, the elapsed duration, the normalized
error, and the message "Request failed". -/
theorem C5_error_propagation
    (req : Req) (rid : String) (t0 : Nat) (s : MState)
    (pre : List HCmd) (e : JSValue)
    (hurl : req.url ≠ "/api/health")
    (hlog : s.log = [])
    (hpre : ∀ x ∈ pre, isThrow x = false) :
    (withLogging (pre ++ [.throwC e]) rid t0 req s).1.2 = some e
    ∧ ((withLogging (pre ++ [.throwC e]) rid t0 req s).1.1.log.countP
        (fun r => r.level == "error")) = 1
    ∧ (withLogging (pre ++ [.throwC e]) rid t0 req s).1.1.log.getLast?
        = some (failureRecord rid (reqDuration (some t0) s.now) e)
    ∧ lookupF (failureRecord rid (reqDuration (some t0) s.now) e).fields
        "requestId" = some (.str rid)
    ∧ lookupF (failureRecord rid (reqDuration (some t0) s.now) e).fields
        "duration" = some (.num (reqDuration (some t0) s.now))
    ∧ lookupF (failureRecord rid (reqDuration (some t0) s.now) e).fields
        "error" = some (normalizeError e)
    ∧ lookupF (failureRecord rid (reqDuration (some t0) s.now) e).fields
        "msg" = some (.str "Request failed")
    ∧ (failureRecord rid (reqDuration (some t0) s.now) e).level = "error" := by
  obtain ⟨-, herr, hlogEq⟩ :=
    withLogging_components (pre ++ [.throwC e]) rid t0 req s hurl
  have hthrow := exec_throw_result rid t0 pre e
      { s with log := s.log ++ [incomingRecord rid
          { req with id := some rid, startTime := some t0 }] } hpre
  have hcnt := exec_errorCount rid t0 (pre ++ [.throwC e])
      { s with log := s.log ++ [incomingRecord rid
          { req with id := some rid, startTime := some t0 }] }
  refine ⟨?_, ?_, ?_, ?_, ?_, ?_, ?_, ?_⟩
  · rw [herr, hthrow]
  · rw [hlogEq, hthrow]
    simp only [List.countP_append]
    rw [hcnt]
    simp [hlog, List.countP_cons, incomingRecord, failureRecord]
  · rw [hlogEq, hthrow]
    simp
  · simp [failureRecord, lookupF_mkObj, lookupF]
  · simp [failureRecord, lookupF_mkObj, lookupF]
  · simp [failureRecord, lookupF_mkObj, lookupF]
  · simp [failureRecord, lookupF_mkObj, lookupF]
  · rfl

/-- C5 witness: a handler that raises a concrete `Error` value. -/
theorem C5_witness :
    (withLogging ([HCmd.setStatus 500] ++ [.throwC (.error "Error" "boom" (some "st"))])
        "r2" 100
        { url := "/api/x", method := "POST", query := .obj [], body := .str "B",
          headers := [], id := none, startTime := none }
        { res := { statusCode := 200, writes := [] }, now := 130,
          log := [] }).1.2 = some (.error "Error" "boom" (some "st"))
    ∧ ((withLogging ([HCmd.setStatus 500] ++ [.throwC (.error "Error" "boom" (some "st"))])
        "r2" 100
        { url := "/api/x", method := "POST", query := .obj [], body := .str "B",
          headers := [], id := none, startTime := none }
        { res := { statusCode := 200, writes := [] }, now := 130,
          log := [] }).1.1.log.countP (fun r => r.level == "error")) = 1
    ∧ (withLogging ([HCmd.setStatus 500] ++ [.throwC (.error "Error" "boom" (some "st"))])
        "r2" 100
        { url := "/api/x", method := "POST", query := .obj [], body := .str "B",
          headers := [], id := none, startTime := none }
        { res := { statusCode := 200, writes := [] }, now := 130,
          log := [] }).1.1.log.getLast?
        = some (failureRecord "r2" (reqDuration (some 100) 130)
            (.error "Error" "boom" (some "st")))
    ∧ lookupF (failureRecord "r2" (reqDuration (some 100) 130)
        (.error "Error" "boom" (some "st"))).fields "requestId"
        = some (.str "r2")
    ∧ lookupF (failureRecord "r2" (reqDuration (some 100) 130)
        (.error "Error" "boom" (some "st"))).fields "duration"
        = some (.num (reqDuration (some 100) 130))
    ∧ lookupF (failureRecord "r2" (reqDuration (some 100) 130)
        (.error "Error" "boom" (some "st"))).fields "error"
        = some (normalizeError (.error "Error" "boom" (some "st")))
    ∧ lookupF (failureRecord "r2" (reqDuration (some 100) 130)
        (.error "Error" "boom" (some "st"))).fields "msg"
        = some (.str "Request failed")
    ∧ (failureRecord "r2" (reqDuration (some 100) 130)
        (.error "Error" "boom" (some "st"))).level = "error" :=
  C5_error_propagation _ "r2" 100 _ [HCmd.setStatus 500]
    (.error "Error" "boom" (some "st")) (by decide) rfl (by decide)

/-- C10: on a non-health-check request, the wrapped handler mutates the
objects it is given before invoking the handler: the handler observes the
request with `id` and `startTime` assigned and every other request field
unchanged, and each of the three response operations replaced by an
intercepting wrapper that logs one completion record and then delegates to
the original operation with the same body. -/
theorem C10_mutation_frame (handler : List HCmd) (rid : String) (t0 : Nat)
    (req : Req) (s : MState) (hurl : req.url ≠ "/api/health") :
    ((withLogging handler rid t0 req s).2.id = some rid
      ∧ (withLogging handler rid t0 req s).2.startTime = some t0
      ∧ (withLogging handler rid t0 req s).2.url = req.url
      ∧ (withLogging handler rid t0 req s).2.method = req.method
      ∧ (withLogging handler rid t0 req s).2.query = req.query
      ∧ (withLogging handler rid t0 req s).2.body = req.body
      ∧ (withLogging handler rid t0 req s).2.headers = req.headers)
    ∧ (∀ b st, (interceptOps rid t0).json b st
        = origOps.json b { st with log := st.log
            ++ [completionRecord rid (reqDuration (some t0) st.now)
                st.res.statusCode (some b)] })
    ∧ (∀ b st, (interceptOps rid t0).send b st
        = origOps.send b { st with log := st.log
            ++ [completionRecord rid (reqDuration (some t0) st.now)
                st.res.statusCode (some b)] })
    ∧ (∀ st, (interceptOps rid t0).endOp st
        = origOps.endOp { st with log := st.log
            ++ [completionRecord rid (reqDuration (some t0) st.now)
                st.res.statusCode none] }) := by
  obtain ⟨hreq, -, -⟩ := withLogging_components handler rid t0 req s hurl
  refine ⟨⟨?_, ?_, ?_, ?_, ?_, ?_, ?_⟩, ?_, ?_, ?_⟩ <;>
    simp [hreq, interceptOps, onComplete]

/-- C10 witness at a concrete request. -/
theorem C10_witness :
    ((withLogging [HCmd.endC] "r3" 7
        { url := "/api/y", method := "GET", query := .obj [], body := .undefV,
          headers := [], id := none, startTime := none }
        { res := { statusCode := 200, writes := [] }, now := 9,
          log := [] }).2.id = some "r3"
      ∧ (withLogging [HCmd.endC] "r3" 7
        { url := "/api/y", method := "GET", query := .obj [], body := .undefV,
          headers := [], id := none, startTime := none }
        { res := { statusCode := 200, writes := [] }, now := 9,
          log := [] }).2.startTime = some 7
      ∧ (withLogging [HCmd.endC] "r3" 7
        { url := "/api/y", method := "GET", query := .obj [], body := .undefV,
          headers := [], id := none, startTime := none }
        { res := { statusCode := 200, writes := [] }, now := 9,
          log := [] }).2.url = "/api/y"
      ∧ (withLogging [HCmd.endC] "r3" 7
        { url := "/api/y", method := "GET", query := .obj [], body := .undefV,
          headers := [], id := none, startTime := none }
        { res := { statusCode := 200, writes := [] }, now := 9,
          log := [] }).2.method = "GET"
      ∧ (withLogging [HCmd.endC] "r3" 7
        { url := "/api/y", method := "GET", query := .obj [], body := .undefV,
          headers := [], id := none, startTime := none }
        { res := { statusCode := 200, writes := [] }, now := 9,
          log := [] }).2.query = .obj []
      ∧ (withLogging [HCmd.endC] "r3" 7
        { url := "/api/y", method := "GET", query := .obj [], body := .undefV,
          headers := [], id := none, startTime := none }
        { res := { statusCode := 200, writes := [] }, now := 9,
          log := [] }).2.body = .undefV
      ∧ (withLogging [HCmd.endC] "r3" 7
        { url := "/api/y", method := "GET", query := .obj [], body := .undefV,
          headers := [], id := none, startTime := none }
        { res := { statusCode := 200, writes := [] }, now := 9,
          log := [] }).2.headers = [])
    ∧ (∀ b st, (interceptOps "r3" 7).json b st
        = origOps.json b { st with log := st.log
            ++ [completionRecord "r3" (reqDuration (some 7) st.now)
                st.res.statusCode (some b)] })
    ∧ (∀ b st, (interceptOps "r3" 7).send b st
        = origOps.send b { st with log := st.log
            ++ [completionRecord "r3" (reqDuration (some 7) st.now)
                st.res.statusCode (some b)] })
    ∧ (∀ st, (interceptOps "r3" 7).endOp st
        = origOps.endOp { st with log := st.log
            ++ [completionRecord "r3" (reqDuration (some 7) st.now)
                st.res.statusCode none] }) :=
  C10_mutation_frame [HCmd.endC] "r3" 7 _ _ (by decide)

/-! ## Claim theorems: helper loggers -/

/-- C6: for every input value, `logError` produces exactly one error-level
record with the fixed message "Error occurred" whose `error` field is the
normalization of the value: name/message/stack verbatim for Error
instances, otherwise name "Unknown", message the string conversion, and
stack omitted from the serialized output. `logError` is a total function of
an arbitrary value: it never raises. -/
theorem C6_logError (e : JSValue) (ctx : List (String × JSValue)) :
    (logError e ctx).length = 1
    ∧ ∀ r ∈ logError e ctx,
        r.level = "error"
        ∧ lookupF r.fields "msg" = some (.str "Error occurred")
        ∧ lookupF r.fields "error" = some (normalizeError e)
        ∧ (∀ n m st, e = .error n m st →
            normalizeError e
              = .obj [("name", .str n), ("message", .str m),
                      ("stack", optStrJ st)])
        ∧ (isErrorInstance e = false →
            normalizeError e
              = .obj [("name", .str "Unknown"),
                      ("message", .str (jsToString e)), ("stack", .undefV)]
            ∧ deepCleanV (normalizeError e)
              = .obj [("name", .str "Unknown"),
                      ("message", .str (jsToString e))]) := by
  refine ⟨rfl, ?_⟩
  intro r hr
  simp only [logError, List.mem_singleton] at hr
  subst hr
  refine ⟨rfl, ?_, ?_, ?_, ?_⟩
  · rw [lookupF_mkObj, lookupF_append]
    rfl
  · rw [lookupF_mkObj, lookupF_append]
    rfl
  · intro n m st he
    subst he
    rfl
  · intro hne
    cases e <;> simp [isErrorInstance] at hne <;>
      exact ⟨rfl, by simp [normalizeError, mkObj, putField, deepCleanV,
        deepCleanF, isUndefV]⟩

/-- C6 witness at a non-Error thrown value. -/
theorem C6_witness :
    (logError (.str "oops") [("op", .str "db")]).length = 1
    ∧ ∀ r ∈ logError (.str "oops") [("op", .str "db")],
        r.level = "error"
        ∧ lookupF r.fields "msg" = some (.str "Error occurred")
        ∧ lookupF r.fields "error" = some (normalizeError (.str "oops"))
        ∧ (∀ n m st, JSValue.str "oops" = .error n m st →
            normalizeError (.str "oops")
              = .obj [("name", .str n), ("message", .str m),
                      ("stack", optStrJ st)])
        ∧ (isErrorInstance (.str "oops") = false →
            normalizeError (.str "oops")
              = .obj [("name", .str "Unknown"),
                      ("message", .str (jsToString (.str "oops"))),
                      ("stack", .undefV)]
            ∧ deepCleanV (normalizeError (.str "oops"))
              = .obj [("name", .str "Unknown"),
                      ("message", .str (jsToString (.str "oops")))]) :=
  C6_logError (.str "oops") [("op", .str "db")]

/-- C7: a timer started via `startTimer` with operation name `N` completes
by computing the duration as now minus the captured start time, returning
that duration, and emitting exactly one `info` record whose `duration`
field equals the returned value, whose `msg` field is
"Operation N completed", and which otherwise preserves the caller's extra
fields. -/
theorem C7_timer (parentCtx : List (String × JSValue)) (op : String) (t0 : Nat)
    (extra : List (String × JSValue)) (t1 : Nat) :
    (timerDone (startTimer parentCtx op t0) extra t1).1 = t1 - t0
    ∧ (startTimer parentCtx op t0).startTime = t0
    ∧ (timerDone (startTimer parentCtx op t0) extra t1).2.length = 1
    ∧ ∀ rec ∈ (timerDone (startTimer parentCtx op t0) extra t1).2,
        rec.level = "info"
        ∧ lookupF rec.fields "duration"
            = some (.num (timerDone (startTimer parentCtx op t0) extra t1).1)
        ∧ lookupF rec.fields "msg"
            = some (.str ("Operation " ++ op ++ " completed"))
        ∧ ∀ k, k ≠ "duration" → k ≠ "msg" →
            lookupF rec.fields k = lookupF extra k := by
  refine ⟨rfl, rfl, rfl, ?_⟩
  intro rec hrec
  simp only [timerDone, List.mem_singleton] at hrec
  subst hrec
  refine ⟨rfl, ?_, ?_, ?_⟩
  · rw [lookupF_mkObj, lookupF_append]
    rfl
  · rw [lookupF_mkObj, lookupF_append]
    rfl
  · intro k hkd hkm
    rw [lookupF_mkObj, lookupF_append]
    have hsuffix : lookupF
        [("duration", JSValue.num (t1 - (startTimer parentCtx op t0).startTime)),
         ("msg", .str ("Operation " ++ (startTimer parentCtx op t0).operation
            ++ " completed"))] k = none := by
      simp [lookupF, Ne.symm hkd, Ne.symm hkm]
    rw [hsuffix]

/-- C7 witness at a concrete timer run. -/
theorem C7_witness :
    (timerDone (startTimer [] "db.query" 100) [("rows", .num 3)] 130).1 = 130 - 100
    ∧ (startTimer [] "db.query" 100).startTime = 100
    ∧ (timerDone (startTimer [] "db.query" 100) [("rows", .num 3)] 130).2.length = 1
    ∧ ∀ rec ∈ (timerDone (startTimer [] "db.query" 100) [("rows", .num 3)] 130).2,
        rec.level = "info"
        ∧ lookupF rec.fields "duration"
            = some (.num (timerDone (startTimer [] "db.query" 100)
                [("rows", .num 3)] 130).1)
        ∧ lookupF rec.fields "msg"
            = some (.str ("Operation " ++ "db.query" ++ " completed"))
        ∧ ∀ k, k ≠ "duration" → k ≠ "msg" →
            lookupF rec.fields k = lookupF [("rows", .num 3)] k :=
  C7_timer [] "db.query" 100 [("rows", .num 3)] 130

/-- C9: when the free-form audit context itself contains an `event` or
`userId` key, the context's value wins the collision against the named
parameters, whereas a `timestamp` key in the context is always overridden
by the freshly generated ISO timestamp. -/
theorem C9_audit_collision (event : String) (userId : Option String)
    (ctx : List (String × JSValue)) (nowIso : String) :
    (∀ v, lookupF ctx "event" = some v →
        lookupF (logAuditEvent event userId ctx nowIso).fields "event" = some v)
    ∧ (∀ v, lookupF ctx "userId" = some v →
        lookupF (logAuditEvent event userId ctx nowIso).fields "userId" = some v)
    ∧ lookupF (logAuditEvent event userId ctx nowIso).fields "timestamp"
        = some (.str nowIso)
    ∧ (logAuditEvent event userId ctx nowIso).level = "info" := by
  refine ⟨?_, ?_, ?_, rfl⟩
  · intro v hv
    simp only [logAuditEvent, lookupF_mkObj]
    rw [List.append_assoc, lookupF_append, lookupF_append, hv]
    rfl
  · intro v hv
    simp only [logAuditEvent, lookupF_mkObj]
    rw [List.append_assoc, lookupF_append, lookupF_append, hv]
    rfl
  · simp only [logAuditEvent, lookupF_mkObj]
    rw [List.append_assoc, lookupF_append, lookupF_append]
    rfl

/-- C9 witness: a context supplying its own `event`, `userId` and
`timestamp` keys. -/
theorem C9_witness :
    (∀ v, lookupF [("event", JSValue.str "ctx.event"),
          ("userId", JSValue.str "ctx.user"),
          ("timestamp", JSValue.str "1999")] "event" = some v →
        lookupF (logAuditEvent "user.login" (some "u1")
          [("event", JSValue.str "ctx.event"), ("userId", JSValue.str "ctx.user"),
           ("timestamp", JSValue.str "1999")] "2025-01-01T00:00:00Z").fields
          "event" = some v)
    ∧ (∀ v, lookupF [("event", JSValue.str "ctx.event"),
          ("userId", JSValue.str "ctx.user"),
          ("timestamp", JSValue.str "1999")] "userId" = some v →
        lookupF (logAuditEvent "user.login" (some "u1")
          [("event", JSValue.str "ctx.event"), ("userId", JSValue.str "ctx.user"),
           ("timestamp", JSValue.str "1999")] "2025-01-01T00:00:00Z").fields
          "userId" = some v)
    ∧ lookupF (logAuditEvent "user.login" (some "u1")
        [("event", JSValue.str "ctx.event"), ("userId", JSValue.str "ctx.user"),
         ("timestamp", JSValue.str "1999")] "2025-01-01T00:00:00Z").fields
        "timestamp" = some (.str "2025-01-01T00:00:00Z")
    ∧ (logAuditEvent "user.login" (some "u1")
        [("event", JSValue.str "ctx.event"), ("userId", JSValue.str "ctx.user"),
         ("timestamp", JSValue.str "1999")] "2025-01-01T00:00:00Z").level
        = "info" :=
  C9_audit_collision "user.login" (some "u1")
    [("event", JSValue.str "ctx.event"), ("userId", JSValue.str "ctx.user"),
     ("timestamp", JSValue.str "1999")] "2025-01-01T00:00:00Z"

/-! ## Claim theorems: logger configuration -/

/-- C3: the effective minimum level of the constructed core logger is the
explicit override when provided (development and production), the
environment default otherwise (`debug` in development, `info` in
production), and in the test environment a level above `fatal`
(`silent`) regardless of any override, so that no record of any of the six
levels is emitted in test runs. -/
theorem C3_effective_level (pid : Nat) (hostname version : Option String) :
    (∀ s, s ∈ pinoLevelNames → s ≠ "" →
        (createLogger .development (some s) pid hostname version).toOption.map
            PinoConfig.level = some s
        ∧ (createLogger .production (some s) pid hostname version).toOption.map
            PinoConfig.level = some s)
    ∧ (∀ ll, truthy ll = false →
        (createLogger .development ll pid hostname version).toOption.map
            PinoConfig.level = some "debug"
        ∧ (createLogger .production ll pid hostname version).toOption.map
            PinoConfig.level = some "info")
    ∧ (∀ ll, (createLoggerConfig .test ll pid hostname version).level = "silent"
        ∧ (createLogger .test ll pid hostname version).toOption.map
            PinoConfig.level = some "silent")
    ∧ levelVal "fatal" < levelVal "silent"
    ∧ (∀ ll lvl, lvl ∈ levelNames → ∀ ctx timeIso fs,
        emit (createLoggerConfig .test ll pid hostname version) ctx timeIso
          { level := lvl, fields := fs } = none) := by
  refine ⟨?_, ?_, ?_, by decide, ?_⟩
  · intro s hs hs2
    constructor <;>
      simp [createLogger, createLoggerConfig, getLogLevel, truthy, hs2,
        pinoInit, hs, Except.toOption]
  · intro ll hll
    constructor <;>
      simp [createLogger, createLoggerConfig, getLogLevel, hll, pinoInit,
        pinoLevelNames, levelNames, LOG_LEVELS, Except.toOption]
  · intro ll
    constructor <;>
      simp [createLogger, createLoggerConfig, pinoInit, pinoLevelNames,
        levelNames, LOG_LEVELS, Except.toOption]
  · intro ll lvl hlvl ctx timeIso fs
    have hcfg : (createLoggerConfig .test ll pid hostname version).level
        = "silent" := by
      simp [createLoggerConfig]
    simp only [emit, hcfg]
    simp only [levelNames, LOG_LEVELS, List.map_cons, List.map_nil,
      List.mem_cons, List.not_mem_nil, or_false] at hlvl
    rcases hlvl with rfl | rfl | rfl | rfl | rfl | rfl <;> simp [levelVal]

/-- C3 witness at concrete configurations. -/
theorem C3_witness :
    (createLogger .development (some "warn") 1 none none).toOption.map
        PinoConfig.level = some "warn"
    ∧ (createLogger .production none 1 none none).toOption.map
        PinoConfig.level = some "info"
    ∧ (createLoggerConfig .test (some "debug") 1 none none).level = "silent"
    ∧ emit (createLoggerConfig .test (some "debug") 1 none none) [] "T"
        { level := "fatal", fields := [] } = none :=
  ⟨((C3_effective_level 1 none none).1 "warn" (by decide) (by decide)).1,
   ((C3_effective_level 1 none none).2.1 none (by decide)).2,
   ((C3_effective_level 1 none none).2.2.1 (some "debug")).1,
   (C3_effective_level 1 none none).2.2.2.2 (some "debug") "fatal" (by decide)
     [] "T" []⟩

/-- C4 counterexample: the claim states that construction fails whenever
the provided override is not one of the six recognized names; but the
override `"silent"` is not one of the six and production construction
succeeds with it, and in the test environment even a wholly unrecognized
override (`"verbose"`) leaves construction successful, because the test
branch discards the configured level in favour of `silent`. -/
theorem C4_counterexample :
    (createLogger .production (some "silent") 1 none none).isOk = true
    ∧ "silent" ∉ levelNames
    ∧ (createLogger .test (some "verbose") 1 none none).isOk = true
    ∧ "verbose" ∉ levelNames := by decide

/-- C4 (amended): in development and production, a provided (non-empty)
override that is neither one of the six recognized names nor `silent`
makes logger construction fail with a `ConfigurationError`; in the test
environment the override is discarded and construction always succeeds. -/
theorem C4_invalid_level (nodeEnv : NodeEnv) (s : String) (pid : Nat)
    (hostname version : Option String) :
    (nodeEnv ≠ .test → s ∉ pinoLevelNames → s ≠ "" →
      createLogger nodeEnv (some s) pid hostname version
        = .error (.unknownLevel s))
    ∧ ∀ ll, (createLogger .test ll pid hostname version).isOk = true := by
  constructor
  · intro hne hnotin hns
    cases nodeEnv with
    | test => exact absurd rfl hne
    | development =>
      simp [createLogger, createLoggerConfig, getLogLevel, truthy, hns,
        pinoInit, hnotin]
    | production =>
      simp [createLogger, createLoggerConfig, getLogLevel, truthy, hns,
        pinoInit, hnotin]
  · intro ll
    simp [createLogger, createLoggerConfig, pinoInit, pinoLevelNames,
      levelNames, LOG_LEVELS, Except.isOk, Except.toBool]

/-- C4 witness: the override `"verbose"` fails production construction and
leaves test construction successful. -/
theorem C4_witness :
    createLogger .production (some "verbose") 1 none none
        = .error (.unknownLevel "verbose")
    ∧ (createLogger .test (some "verbose") 1 none none).isOk = true :=
  ⟨(C4_invalid_level .production "verbose" 1 none none).1 (by decide)
      (by decide) (by decide),
   (C4_invalid_level .production "verbose" 1 none none).2 (some "verbose")⟩

/-! ## Redaction lemmas -/

theorem lookupF_redactF (censor : JSValue) (ts : List (List String))
    (fs : List (String × JSValue)) (k : String) :
    lookupF (redactF censor ts fs) k
      = (lookupF fs k).map (redactV censor (tailsFor k ts)) := by
  induction fs with
  | nil => simp [redactF, lookupF]
  | cons e tl ih =>
    obtain ⟨k0, v0⟩ := e
    rw [redactF, lookupF_cons, lookupF_cons, ih]
    cases h : lookupF tl k
    · simp only [Option.map_none']
      by_cases hk : k0 = k
      · subst hk; simp
      · simp [hk]
    · simp

theorem mem_tailsFor (k : String) (r : List String) (ts : List (List String))
    (h : (k :: r) ∈ ts) : r ∈ tailsFor k ts := by
  simp only [tailsFor, List.mem_map, List.mem_filter]
  exact ⟨k :: r, ⟨h, by simp⟩, rfl⟩

theorem tailsFor_mem (k : String) (q : List String) (ts : List (List String))
    (h : q ∈ tailsFor k ts) : (k :: q) ∈ ts := by
  simp only [tailsFor, List.mem_map, List.mem_filter] at h
  obtain ⟨p, ⟨hp, hhead⟩, htail⟩ := h
  cases p with
  | nil => simp at hhead
  | cons a as =>
    simp only [List.head?_cons, decide_eq_true_eq, Option.some.injEq] at hhead
    simp only [List.tail_cons] at htail
    subst hhead; subst htail
    exact hp

theorem isUndef_redactV (ts : List (List String)) (v : JSValue)
    (hc : ts.contains [] = false) :
    isUndefV (redactV censorJ ts v) = isUndefV v := by
  have hm : ([] : List String) ∉ ts := by simpa using hc
  cases v <;> simp [redactV, hm, isUndefV]

theorem isUndef_eraseV (ts : List (List String)) (v : JSValue) :
    isUndefV (eraseV ts v) = isUndefV v := by
  cases v <;> simp [eraseV, isUndefV]

theorem redactV_censored (censor : JSValue) (ts : List (List String))
    (v : JSValue) (hc : ts.contains [] = true) :
    redactV censor ts v = censor := by
  have hm : ([] : List String) ∈ ts := by simpa using hc
  cases v <;> simp [redactV, hm]

theorem redactV_nonobj_id (ts : List (List String)) (v : JSValue)
    (hc : ts.contains [] = false)
    (hobj : ∀ fs, v ≠ .obj fs) :
    redactV censorJ ts v = v := by
  have hm : ([] : List String) ∉ ts := by simpa using hc
  cases v <;> first
    | (exact absurd rfl (hobj _))
    | simp [redactV, hm]

theorem eraseV_nonobj_id (ts : List (List String)) (v : JSValue)
    (hobj : ∀ fs, v ≠ .obj fs) :
    eraseV ts v = v := by
  cases v <;> first
    | (exact absurd rfl (hobj _))
    | simp [eraseV]

/-- Redacting a present path whose addressed position is not blocked by a
shorter configured path yields the censor value at that position. -/
theorem getPath_redact (censor : JSValue) :
    ∀ (p : List String) (ts : List (List String)) (w v : JSValue),
      p ∈ ts →
      (∀ q ∈ ts, prefixOfB q p = true → q = p) →
      getPathV p w = some v →
      getPathV p (redactV censor ts w) = some censor := by
  intro p
  induction p with
  | nil =>
    intro ts w v hmem _ _
    have hc : ts.contains [] = true := by
      simpa using hmem
    rw [redactV_censored censor ts w hc]
    simp [getPathV]
  | cons k rest ih =>
    intro ts w v hmem hpref hget
    have hnc : ts.contains [] = false := by
      by_contra hcc
      simp only [Bool.not_eq_false] at hcc
      have hm : ([] : List String) ∈ ts := by simpa using hcc
      exact absurd (hpref [] hm rfl) (by simp)
    cases w with
    | obj fs =>
      rw [getPathV] at hget
      cases hl : lookupF fs k with
      | none => rw [hl] at hget; exact absurd hget (by simp)
      | some w2 =>
        rw [hl] at hget
        rw [redactV, if_neg (by simpa using hnc)]
        rw [getPathV, lookupF_redactF, hl]
        exact ih (tailsFor k ts) w2 v (mem_tailsFor k rest ts hmem)
          (fun q hq hpq => by
            have := hpref (k :: q) (tailsFor_mem k q ts hq)
              (by simp [prefixOfB, hpq])
            exact (List.cons.injEq _ _ _ _ ▸ this).2)
          hget
    | str s => simp [getPathV] at hget
    | num n => simp [getPathV] at hget
    | bool b => simp [getPathV] at hget
    | undefV => simp [getPathV] at hget
    | jsNull => simp [getPathV] at hget
    | error a b c => simp [getPathV] at hget

/-- If no censor value appears in the cleaned redacted output, the redaction
changed nothing and the erased variant coincides with the plain record. -/
theorem redact_clean_id :
    (∀ w, ∀ ts, occursV censorJ (deepCleanV (redactV censorJ ts w)) = false →
        deepCleanV (redactV censorJ ts w) = deepCleanV w
        ∧ deepCleanV (eraseV ts w) = deepCleanV w)
    ∧ (∀ fs, ∀ ts,
        occursF censorJ (deepCleanF (redactF censorJ ts fs)) = false →
        deepCleanF (redactF censorJ ts fs) = deepCleanF fs
        ∧ deepCleanF (eraseF ts fs) = deepCleanF fs) := by
  have hnonobj : ∀ (w : JSValue), (∀ fs, w ≠ .obj fs) →
      ∀ ts, occursV censorJ (deepCleanV (redactV censorJ ts w)) = false →
        deepCleanV (redactV censorJ ts w) = deepCleanV w
        ∧ deepCleanV (eraseV ts w) = deepCleanV w := by
    intro w hw ts h
    by_cases hc : ts.contains [] = true
    · rw [redactV_censored censorJ ts w hc] at h
      simp [deepCleanV, censorJ, occursV, BEq.beq, jeq] at h
    · simp only [Bool.not_eq_true] at hc
      rw [redactV_nonobj_id ts w hc hw, eraseV_nonobj_id ts w hw]
      exact ⟨rfl, rfl⟩
  refine jsvalue_ind
    (fun w => ∀ ts,
      occursV censorJ (deepCleanV (redactV censorJ ts w)) = false →
        deepCleanV (redactV censorJ ts w) = deepCleanV w
        ∧ deepCleanV (eraseV ts w) = deepCleanV w)
    (fun fs => ∀ ts,
      occursF censorJ (deepCleanF (redactF censorJ ts fs)) = false →
        deepCleanF (redactF censorJ ts fs) = deepCleanF fs
        ∧ deepCleanF (eraseF ts fs) = deepCleanF fs)
    ?_ ?_ ?_ ?_ ?_ ?_ ?_ ?_ ?_
  · intro s; exact hnonobj _ (by intro fs h; exact absurd h (by simp))
  · intro n; exact hnonobj _ (by intro fs h; exact absurd h (by simp))
  · intro b; exact hnonobj _ (by intro fs h; exact absurd h (by simp))
  · exact hnonobj _ (by intro fs h; exact absurd h (by simp))
  · exact hnonobj _ (by intro fs h; exact absurd h (by simp))
  · intro n m st; exact hnonobj _ (by intro fs h; exact absurd h (by simp))
  · intro fs hfs ts h
    by_cases hc : ts.contains [] = true
    · rw [redactV_censored censorJ ts _ hc] at h
      simp [deepCleanV, censorJ, occursV, BEq.beq, jeq] at h
    · simp only [Bool.not_eq_true] at hc
      rw [redactV, if_neg (by simpa using hc)] at h ⊢
      simp only [deepCleanV, eraseV] at h ⊢
      simp only [occursV, Bool.or_eq_false_iff] at h
      obtain ⟨h1, h2⟩ := hfs ts h.2
      exact ⟨by rw [h1], by rw [h2]⟩
  · intro ts _
    simp [redactF, eraseF]
  · intro k v0 tl ihP ihQ ts h
    by_cases hc2 : (tailsFor k ts).contains [] = true
    · rw [redactF, redactV_censored censorJ _ _ hc2] at h
      rw [deepCleanF, if_neg (by simp [censorJ, isUndefV])] at h
      simp [censorJ, occursF, occursV, BEq.beq, jeq, deepCleanV] at h
    · simp only [Bool.not_eq_true] at hc2
      have hru : isUndefV (redactV censorJ (tailsFor k ts) v0) = isUndefV v0 :=
        isUndef_redactV _ _ hc2
      have heu : isUndefV (eraseV (tailsFor k ts) v0) = isUndefV v0 :=
        isUndef_eraseV _ _
      rw [redactF] at h
      rw [redactF, eraseF, if_neg (by simpa using hc2)]
      by_cases hu : isUndefV v0 = true
      · have e1 : deepCleanF ((k, redactV censorJ (tailsFor k ts) v0)
              :: redactF censorJ ts tl) = deepCleanF (redactF censorJ ts tl) := by
          rw [deepCleanF, if_pos (hru.trans hu)]
        have e2 : deepCleanF ((k, eraseV (tailsFor k ts) v0) :: eraseF ts tl)
            = deepCleanF (eraseF ts tl) := by
          rw [deepCleanF, if_pos (heu.trans hu)]
        have e3 : deepCleanF ((k, v0) :: tl) = deepCleanF tl := by
          rw [deepCleanF, if_pos hu]
        rw [e1] at h
        obtain ⟨h1, h2⟩ := ihQ ts h
        rw [e1, e2, e3]
        exact ⟨h1, h2⟩
      · simp only [Bool.not_eq_true] at hu
        have e1 : deepCleanF ((k, redactV censorJ (tailsFor k ts) v0)
              :: redactF censorJ ts tl)
            = (k, deepCleanV (redactV censorJ (tailsFor k ts) v0))
              :: deepCleanF (redactF censorJ ts tl) := by
          rw [deepCleanF, if_neg (by simp [hru, hu])]
        have e2 : deepCleanF ((k, eraseV (tailsFor k ts) v0) :: eraseF ts tl)
            = (k, deepCleanV (eraseV (tailsFor k ts) v0))
              :: deepCleanF (eraseF ts tl) := by
          rw [deepCleanF, if_neg (by simp [heu, hu])]
        have e3 : deepCleanF ((k, v0) :: tl)
            = (k, deepCleanV v0) :: deepCleanF tl := by
          rw [deepCleanF, if_neg (by simp [hu])]
        rw [e1] at h
        simp only [occursF, Bool.or_eq_false_iff] at h
        obtain ⟨hh1, hh2⟩ := ihP (tailsFor k ts) h.1
        obtain ⟨ht1, ht2⟩ := ihQ ts h.2
        rw [e1, e2, e3]
        exact ⟨by rw [hh1, ht1], by rw [hh2, ht2]⟩

/-- Redaction only removes information (beyond introducing the censor): a
non-censor, censor-free value occurring in the cleaned redacted record also
occurs in the cleaned record with the redacted positions erased. -/
theorem occurs_redact_to_erase (v : JSValue) (hvc : (v == censorJ) = false)
    (hcf : occursV censorJ v = false) :
    (∀ w, ∀ ts, occursV v (deepCleanV (redactV censorJ ts w)) = true →
        occursV v (deepCleanV (eraseV ts w)) = true)
    ∧ (∀ fs, ∀ ts, occursF v (deepCleanF (redactF censorJ ts fs)) = true →
        occursF v (deepCleanF (eraseF ts fs)) = true) := by
  have hself : occursV v censorJ = (v == censorJ) := by
    simp [censorJ, occursV]
  have hnonobj : ∀ (w : JSValue), (∀ fs, w ≠ .obj fs) →
      ∀ ts, occursV v (deepCleanV (redactV censorJ ts w)) = true →
        occursV v (deepCleanV (eraseV ts w)) = true := by
    intro w hw ts h
    by_cases hc : ts.contains [] = true
    · rw [redactV_censored censorJ ts w hc] at h
      rw [show deepCleanV censorJ = censorJ from rfl, hself, hvc] at h
      exact absurd h (by simp)
    · simp only [Bool.not_eq_true] at hc
      rw [redactV_nonobj_id ts w hc hw] at h
      rw [eraseV_nonobj_id ts w hw]
      exact h
  refine jsvalue_ind
    (fun w => ∀ ts, occursV v (deepCleanV (redactV censorJ ts w)) = true →
        occursV v (deepCleanV (eraseV ts w)) = true)
    (fun fs => ∀ ts, occursF v (deepCleanF (redactF censorJ ts fs)) = true →
        occursF v (deepCleanF (eraseF ts fs)) = true)
    ?_ ?_ ?_ ?_ ?_ ?_ ?_ ?_ ?_
  · intro s; exact hnonobj _ (by intro fs h; exact absurd h (by simp))
  · intro n; exact hnonobj _ (by intro fs h; exact absurd h (by simp))
  · intro b; exact hnonobj _ (by intro fs h; exact absurd h (by simp))
  · exact hnonobj _ (by intro fs h; exact absurd h (by simp))
  · exact hnonobj _ (by intro fs h; exact absurd h (by simp))
  · intro n m st; exact hnonobj _ (by intro fs h; exact absurd h (by simp))
  · intro fs hfs ts h
    by_cases hc : ts.contains [] = true
    · rw [redactV_censored censorJ ts _ hc] at h
      rw [show deepCleanV censorJ = censorJ from rfl, hself, hvc] at h
      exact absurd h (by simp)
    · simp only [Bool.not_eq_true] at hc
      rw [redactV, if_neg (by simpa using hc)] at h
      simp only [deepCleanV, eraseV] at h ⊢
      simp only [occursV, Bool.or_eq_true_iff] at h ⊢
      rcases h with hveq | hocc
      · have hveqp : v = .obj (deepCleanF (redactF censorJ ts fs)) :=
          eq_of_beq hveq
        have hcfX : occursF censorJ (deepCleanF (redactF censorJ ts fs))
            = false := by
          rw [hveqp] at hcf
          simp only [occursV, Bool.or_eq_false_iff] at hcf
          exact hcf.2
        obtain ⟨h1, h2⟩ := redact_clean_id.2 fs ts hcfX
        left
        rw [h2, ← h1, ← hveqp]
        exact beq_self_eq_true v
      · right
        exact hfs ts hocc
  · intro ts h
    simp [redactF, occursF] at h
  · intro k v0 tl ihP ihQ ts h
    by_cases hc2 : (tailsFor k ts).contains [] = true
    · rw [redactF, redactV_censored censorJ _ _ hc2] at h
      rw [deepCleanF, if_neg (by simp [censorJ, isUndefV])] at h
      simp only [occursF, Bool.or_eq_true_iff] at h
      rcases h with hhead | htail
      · rw [show deepCleanV censorJ = censorJ from rfl, hself, hvc] at hhead
        exact absurd hhead (by simp)
      · rw [eraseF, if_pos hc2]
        exact ihQ ts htail
    · simp only [Bool.not_eq_true] at hc2
      have hkeep : isUndefV (redactV censorJ (tailsFor k ts) v0)
          = isUndefV v0 := isUndef_redactV _ _ hc2
      rw [redactF] at h
      rw [eraseF, if_neg (by simpa using hc2)]
      by_cases hu : isUndefV v0 = true
      · rw [deepCleanF, if_pos (by rw [hkeep]; exact hu)] at h
        rw [deepCleanF, if_pos (by rw [isUndef_eraseV]; exact hu)]
        exact ihQ ts h
      · simp only [Bool.not_eq_true] at hu
        rw [deepCleanF, if_neg (by simp [hkeep, hu])] at h
        rw [deepCleanF, if_neg (by simp [isUndef_eraseV, hu])]
        simp only [occursF, Bool.or_eq_true_iff] at h ⊢
        rcases h with hhead | htail
        · left; exact ihP (tailsFor k ts) hhead
        · right; exact ihQ ts htail

theorem lookupF_deepCleanF_none (fs : List (String × JSValue)) (k : String)
    (h : lookupF fs k = none) :
    lookupF (deepCleanF fs) k = none := by
  induction fs with
  | nil => simp [deepCleanF, lookupF]
  | cons e tl ih =>
    obtain ⟨a, b⟩ := e
    rw [lookupF_cons] at h
    cases hl : lookupF tl k
    · rw [hl] at h
      by_cases hak : a = k
      · rw [if_pos hak] at h; exact absurd h (by simp)
      · rw [deepCleanF]
        by_cases hu : isUndefV b = true
        · rw [if_pos hu]; exact ih hl
        · rw [if_neg hu, lookupF_cons, ih hl]
          simp [hak]
    · rw [hl] at h; exact absurd h (by simp)

theorem lookupF_deepCleanF_some (fs : List (String × JSValue)) (k : String)
    (w2 : JSValue) (h : lookupF fs k = some w2) (hw : isUndefV w2 = false) :
    lookupF (deepCleanF fs) k = some (deepCleanV w2) := by
  induction fs with
  | nil => simp [lookupF] at h
  | cons e tl ih =>
    obtain ⟨a, b⟩ := e
    rw [lookupF_cons] at h
    cases hl : lookupF tl k
    · rw [hl] at h
      by_cases hak : a = k
      · rw [if_pos hak] at h
        injection h with h2
        subst h2
        rw [deepCleanF, if_neg (by simp [hw]), lookupF_cons,
          lookupF_deepCleanF_none tl k hl, if_pos hak]
      · rw [if_neg hak] at h; exact absurd h (by simp)
    · rw [hl] at h
      injection h with h2
      subst h2
      rw [deepCleanF]
      by_cases hu : isUndefV b = true
      · rw [if_pos hu]; exact ih hl
      · rw [if_neg hu, lookupF_cons, ih hl]

/-- Deep cleaning preserves path lookups of non-undefined values (up to
cleaning the found value). -/
theorem getPath_deepClean :
    ∀ (p : List String) (w v2 : JSValue), getPathV p w = some v2 →
      isUndefV v2 = false →
      getPathV p (deepCleanV w) = some (deepCleanV v2) := by
  intro p
  induction p with
  | nil =>
    intro w v2 h hv
    simp only [getPathV, Option.some.injEq] at h ⊢
    rw [h]
  | cons k rest ih =>
    intro w v2 h hv
    cases w with
    | obj fs =>
      rw [getPathV] at h
      cases hl : lookupF fs k with
      | none => rw [hl] at h; exact absurd h (by simp)
      | some w2 =>
        rw [hl] at h
        have hw2 : isUndefV w2 = false := by
          cases w2 with
          | undefV =>
            cases rest with
            | nil =>
              simp only [getPathV, Option.some.injEq] at h
              rw [← h] at hv
              simp [isUndefV] at hv
            | cons r rs => simp [getPathV] at h
          | str s => rfl
          | num n => rfl
          | bool b => rfl
          | jsNull => rfl
          | error a b c => rfl
          | obj g => rfl
        have hlc := lookupF_deepCleanF_some fs k w2 hl hw2
        rw [show deepCleanV (.obj fs) = .obj (deepCleanF fs) from by
          rw [deepCleanV]]
        rw [getPathV, hlc]
        exact ih w2 v2 h hv
    | str s => simp [getPathV] at h
    | num n => simp [getPathV] at h
    | bool b => simp [getPathV] at h
    | undefV => simp [getPathV] at h
    | jsNull => simp [getPathV] at h
    | error a b c => simp [getPathV] at h

/-- Redaction with an empty path set is the identity (the development
configuration applies no redaction rules). -/
theorem redact_nil (c : JSValue) :
    (∀ w, redactV c [] w = w) ∧ (∀ fs, redactF c [] fs = fs) := by
  refine jsvalue_ind (fun w => redactV c [] w = w)
    (fun fs => redactF c [] fs = fs) ?_ ?_ ?_ ?_ ?_ ?_ ?_ ?_ ?_
  · intro s; simp [redactV]
  · intro n; simp [redactV]
  · intro b; simp [redactV]
  · simp [redactV]
  · simp [redactV]
  · intro n m st; simp [redactV]
  · intro fs hfs; simp [redactV, hfs]
  · simp [redactF]
  · intro k v tl hv htl
    have ht : tailsFor k ([] : List (List String)) = [] := rfl
    rw [redactF, ht, hv, htl]

/-- The configured redaction paths never shadow one another: no configured
path is a proper prefix of another. -/
theorem defaultPaths_prefixFree :
    ∀ p ∈ defaultRedactPaths, ∀ q ∈ defaultRedactPaths,
      prefixOfB q p = true → q = p := by decide

/-! ## Claim theorem: redaction -/

/-- C2: for every record whose merged object carries a value at one of the
configured redaction paths, the production (redacting) output carries the
fixed censor string at that position, and — provided the value is
censor-free and occurs only at redacted positions — the original value
appears nowhere in the emitted output; info-level records are emitted in
production through exactly this pipeline, while the development
configuration has an empty redaction rule set and leaves the value in
place. -/
theorem C2_redaction (pid : Nat) (hostname version : Option String)
    (X : List (String × JSValue)) (p : List String) (v : JSValue)
    (hp : p ∈ defaultRedactPaths)
    (hv : getPathV p (.obj (mkObj X)) = some v)
    (hvc : v ≠ censorJ)
    (hcf : occursV censorJ v = false)
    (hvu : isUndefV v = false)
    (honly : occursV v (deepCleanV (eraseV defaultRedactPaths
        (.obj (mkObj X)))) = false) :
    (createLoggerConfig .production none pid hostname version).redactPaths
        = defaultRedactPaths
    ∧ getPathV p (.obj (processOutput
        (createLoggerConfig .production none pid hostname version) X))
        = some censorJ
    ∧ occursF v (processOutput
        (createLoggerConfig .production none pid hostname version) X) = false
    ∧ (∀ ctx timeIso fs2,
        emit (createLoggerConfig .production none pid hostname version)
            ctx timeIso { level := "info", fields := fs2 }
          = some (processOutput
              (createLoggerConfig .production none pid hostname version)
              (mergedFields
                (createLoggerConfig .production none pid hostname version)
                ctx timeIso { level := "info", fields := fs2 })))
    ∧ (createLoggerConfig .development none pid hostname version).redactPaths
        = []
    ∧ getPathV p (.obj (processOutput
        (createLoggerConfig .development none pid hostname version) X))
        = some (deepCleanV v) := by
  have hcfg : createLoggerConfig .production none pid hostname version
      = { name := "next-ai-ready", level := "info",
          base := baseFields .production pid hostname version, pretty := false,
          redactPaths := defaultRedactPaths, censor := CENSOR } := by
    simp [createLoggerConfig, getLogLevel, truthy]
  have hdev : createLoggerConfig .development none pid hostname version
      = { name := "next-ai-ready", level := "debug",
          base := baseFields .development pid hostname version, pretty := true,
          redactPaths := [], censor := CENSOR } := by
    simp [createLoggerConfig, getLogLevel, truthy]
  have hC : (JSValue.str CENSOR) = censorJ := rfl
  have hnc2 : defaultRedactPaths.contains [] = false := by decide
  have h3 : redactV censorJ defaultRedactPaths (.obj (mkObj X))
      = .obj (redactF censorJ defaultRedactPaths (mkObj X)) := by
    rw [redactV, if_neg (by simpa using hnc2)]
  refine ⟨by rw [hcfg], ?_, ?_, ?_, by rw [hdev], ?_⟩
  · have h1 : getPathV p (redactV censorJ defaultRedactPaths
        (.obj (mkObj X))) = some censorJ :=
      getPath_redact censorJ p defaultRedactPaths (.obj (mkObj X)) v hp
        (defaultPaths_prefixFree p hp) hv
    have h2 := getPath_deepClean p _ censorJ h1 (by decide)
    rw [h3, show deepCleanV (.obj (redactF censorJ defaultRedactPaths
          (mkObj X))) = .obj (deepCleanF (redactF censorJ defaultRedactPaths
          (mkObj X))) from by rw [deepCleanV],
        show deepCleanV censorJ = censorJ from rfl] at h2
    rw [hcfg]
    simp only [processOutput, hC]
    exact h2
  · have hvcB : (v == censorJ) = false := by
      simp [hvc]
    by_contra hocc
    simp only [Bool.not_eq_false] at hocc
    rw [hcfg] at hocc
    simp only [processOutput, hC] at hocc
    have hoccV : occursV v (deepCleanV (redactV censorJ defaultRedactPaths
        (.obj (mkObj X)))) = true := by
      rw [h3, show deepCleanV (.obj (redactF censorJ defaultRedactPaths
          (mkObj X))) = .obj (deepCleanF (redactF censorJ defaultRedactPaths
          (mkObj X))) from by rw [deepCleanV]]
      simp [occursV, hocc]
    have hfin := (occurs_redact_to_erase v hvcB hcf).1 (.obj (mkObj X))
      defaultRedactPaths hoccV
    rw [hfin] at honly
    exact absurd honly (by simp)
  · intro ctx timeIso fs2
    rw [hcfg, emit, if_pos (by simp [levelVal])]
  · rw [hdev]
    simp only [processOutput, hC, (redact_nil censorJ).2]
    have h4 := getPath_deepClean p (.obj (mkObj X)) v hv hvu
    rw [show deepCleanV (.obj (mkObj X)) = .obj (deepCleanF (mkObj X)) from by
      rw [deepCleanV]] at h4
    exact h4

/-- C2 witness: a record carrying `password: "hunter2"` is censored in the
production output, the original value is gone, and the development output
keeps it. -/
theorem C2_witness :
    (createLoggerConfig .production none 1 none none).redactPaths
        = defaultRedactPaths
    ∧ getPathV ["password"] (.obj (processOutput
        (createLoggerConfig .production none 1 none none)
        [("password", .str "hunter2")])) = some censorJ
    ∧ occursF (.str "hunter2") (processOutput
        (createLoggerConfig .production none 1 none none)
        [("password", .str "hunter2")]) = false
    ∧ (∀ ctx timeIso fs2,
        emit (createLoggerConfig .production none 1 none none) ctx timeIso
            { level := "info", fields := fs2 }
          = some (processOutput (createLoggerConfig .production none 1 none none)
              (mergedFields (createLoggerConfig .production none 1 none none)
                ctx timeIso { level := "info", fields := fs2 })))
    ∧ (createLoggerConfig .development none 1 none none).redactPaths = []
    ∧ getPathV ["password"] (.obj (processOutput
        (createLoggerConfig .development none 1 none none)
        [("password", .str "hunter2")]))
        = some (deepCleanV (.str "hunter2")) :=
  C2_redaction 1 none none [("password", .str "hunter2")] ["password"]
    (.str "hunter2") (by decide) (by decide) (by decide) (by decide)
    (by decide) (by decide)

/-- C2 counterexample to the unconditional claim: when the redacted value
also sits under a non-configured key, the production output censors the
configured position but still contains the original value elsewhere, so
"the original value appears nowhere in the output" fails as stated. -/
theorem C2_counterexample :
    getPathV ["password"] (.obj (processOutput
        (createLoggerConfig .production none 1 none none)
        [("password", .str "x1"), ("note", .str "x1")])) = some censorJ
    ∧ occursF (.str "x1") (processOutput
        (createLoggerConfig .production none 1 none none)
        [("password", .str "x1"), ("note", .str "x1")]) = true := by decide

/-! ## Claim theorems: undefined stripping -/

/-- Deep cleaning removes `undefined` at every depth. -/
theorem deepClean_no_undef :
    (∀ w, isUndefV w = false → occursV .undefV (deepCleanV w) = false)
    ∧ (∀ fs, occursF .undefV (deepCleanF fs) = false) := by
  refine jsvalue_ind (fun w => isUndefV w = false → occursV .undefV (deepCleanV w) = false)
    (fun fs => occursF .undefV (deepCleanF fs) = false) ?_ ?_ ?_ ?_ ?_ ?_ ?_ ?_ ?_
  · intro s _; simp [deepCleanV, occursV, BEq.beq, jeq]
  · intro n _; simp [deepCleanV, occursV, BEq.beq, jeq]
  · intro b _; simp [deepCleanV, occursV, BEq.beq, jeq]
  · intro h; simp [isUndefV] at h
  · intro _; simp [deepCleanV, occursV, BEq.beq, jeq]
  · intro n m st _; simp [deepCleanV, occursV, BEq.beq, jeq]
  · intro fs ih _
    simp [deepCleanV, occursV, BEq.beq, jeq, ih]
  · simp [deepCleanF, occursF]
  · intro k v tl ihv ihtl
    by_cases hu : isUndefV v = true
    · simp [deepCleanF, hu, ihtl]
    · simp only [Bool.not_eq_true] at hu
      simp [deepCleanF, hu, occursF, ihv hu, ihtl]

/-- C8: no record emitted through the core logger or any descendant
contains a field whose value is `undefined`, at any depth: all
undefined-valued entries are stripped before emission. -/
theorem C8_no_undefined_fields (cfg : PinoConfig)
    (childCtx : List (String × JSValue)) (timeIso : String) (rec : LogRecord)
    (out : List (String × JSValue))
    (h : emit cfg childCtx timeIso rec = some out) :
    occursF .undefV out = false := by
  rw [emit] at h
  by_cases hlv : levelVal cfg.level ≤ levelVal rec.level
  · rw [if_pos hlv] at h
    injection h with h
    subst h
    simp only [processOutput]
    exact deepClean_no_undef.2 _
  · rw [if_neg hlv] at h
    exact absurd h (by simp)

/-- C8 witness: a concrete production emission with `undefined` at top level
and nested drops both. -/
theorem C8_witness :
    occursF JSValue.undefV
      [("level", JSValue.str "info"), ("time", JSValue.str "T"),
       ("pid", JSValue.num 1), ("hostname", JSValue.str "localhost"),
       ("service", JSValue.str "next-ai-ready"),
       ("version", JSValue.str "0.1.0"), ("env", JSValue.str "production"),
       ("component", JSValue.str "auth"), ("b", JSValue.num 2),
       ("nested", JSValue.obj [("y", JSValue.str "k")])] = false :=
  C8_no_undefined_fields (createLoggerConfig .production none 1 none none)
    [("component", .str "auth")] "T"
    { level := "info",
      fields := [("a", .undefV), ("b", .num 2),
        ("nested", .obj [("x", .undefV), ("y", .str "k")])] }
    _ (by decide)

end NextAiReady
